import Mathlib

/-!
Verification of the chat-history formatting core

Shallow embedding of the shared core of the repository
`customizable-text-history-with-regexes`: six JavaScript variants of a
chat-history formatter (a Tampermonkey userscript and several
SillyTavern extensions).  The embedded functions keep the source names:
`estimateTokens`, `getChatHistory`, `applyRegexRules`, `applyRegex`,
`getLastUserMessage`, `generateHeaders`, `generateLastMessage`,
`generateLastUserMessage`, `headerHistoryR`.

Modelling conventions:
* A chat message (`Turn`) carries the fields the core reads: `is_user`
  and `mes` (source: `{ id, is_user, mes }`; `id` is never read by the
  core logic and is omitted).
* JavaScript numbers that the settings layer produces with
  `parseInt(...) || 0` / `parseInt(...) || 4` (`maxTokens`,
  `charsPerToken`) are modelled as `Nat`.
* `Math.ceil(a / b)` on naturals is `(a + b - 1) / b` (Nat division).
* The possibly-`undefined` argument of `estimateTokens` is an
  `Option String`; JavaScript falsiness of a string (`!text`) is
  `none` or the empty string.
* The host regular-expression engine (`new RegExp`, `String.replace`)
  is external to the repository.  It is modelled as an abstract oracle
  `JsRegex`: `valid pattern flags` says whether `new RegExp(pattern,
  flags)` succeeds (otherwise the constructor throws and the
  `catch` branch of the source runs), and `replaceAll text pattern flags replacement`
  is the result of the global replace.  Theorems about control flow
  quantify over every oracle; concrete counterexamples instantiate the
  oracle with the behaviour JavaScript exhibits on the literal
  patterns involved.
-/

namespace CTHR

/-- One conversation message, as extracted by the host. -/
structure Turn where
  is_user : Bool
  mes : String
deriving DecidableEq, Repr

/-- Embedding of `estimateTokens` (the guarded variants, e.g.
`src/index.js` lines 810-814 and `src/unnamed/part_000` lines 66-70):
`if (!text) return 0; return Math.ceil(text.length / charsPerToken)`.
The unguarded variant (`src/index.js` lines 90-93) agrees with this one
on every defined string, since `Math.ceil(0 / c) = 0`. -/
def estimateTokens : Option String → Nat → Nat
  | none, _ => 0
  | some text, charsPerToken =>
      if text.isEmpty then 0
      else (text.length + charsPerToken - 1) / charsPerToken

/-- Configuration object of the userscript variant (`src/index.js`,
`defaultSettings`), restricted to the fields the embedded core reads. -/
structure RegexRule where
  enabled : Bool
  pattern : String
  replacement : String
  flags : String
deriving DecidableEq, Repr

structure Config where
  userHeader : String
  assistantHeader : String
  xmlUserTag : String
  xmlAssistantTag : String
  skipLastAssistant : Bool
  maxTokens : Nat
  charsPerToken : Nat
  softTokenLimit : Bool
  excludeLastUser : Bool
  regexRules : List RegexRule
deriving DecidableEq, Repr

/-- The "skip last assistant message" step of `getChatHistory`
(`src/index.js` lines 115-120): if the sequence is non-empty and its
last element is not a user turn, drop it.  The
`messages.length > 0` guard of the source is absorbed by `getLast?` returning `none`
on the empty list. -/
def skipLastAssistantStep (messages : List Turn) : List Turn :=
  match messages.getLast? with
  | some lastMsg => if !lastMsg.is_user then messages.dropLast else messages
  | none => messages

/-- Inner loop of the "exclude last user message" step, on the reversed
list: the source scans `for (let i = messages.length - 1; i >= 0; i--)`
and removes the first `is_user` element it meets, then breaks. -/
def removeFirstUser : List Turn → List Turn
  | [] => []
  | msg :: rest => if msg.is_user then rest else msg :: removeFirstUser rest

/-- The "exclude last user message" step of `getChatHistory`
(`src/index.js` lines 123-131): remove the most recent user turn, if
any.  The backward scan with `break` is the forward scan of the
reversed list. -/
def removeLastUser (messages : List Turn) : List Turn :=
  (removeFirstUser messages.reverse).reverse

/-- The two filtering steps of `getChatHistory` that precede the token
limit (`src/index.js` lines 115-131). -/
def filteredMessages (config : Config) (chat : List Turn) : List Turn :=
  let messages := chat
  let messages := if config.skipLastAssistant then skipLastAssistantStep messages else messages
  if config.excludeLastUser then removeLastUser messages else messages

/-- The token-limit loop of `getChatHistory` (`src/index.js` lines
139-160), written on the reversed message list (the source iterates
`i = length-1 .. 0` and `unshift`s, so the chronological result is the
reverse of the output of this function).  `total` is `totalTokens`.
Soft branch: `unshift; totalTokens += msgTokens; if (totalTokens >=
maxTokens) break`.  Hard branch: `if (totalTokens + msgTokens >
maxTokens) break; unshift; totalTokens += msgTokens`. -/
def limitRev (charsPerToken maxTokens : Nat) (soft : Bool) : Nat → List Turn → List Turn
  | _, [] => []
  | total, msg :: rest =>
      let msgTokens := estimateTokens (some msg.mes) charsPerToken
      if soft then
        if maxTokens ≤ total + msgTokens then [msg]
        else msg :: limitRev charsPerToken maxTokens soft (total + msgTokens) rest
      else
        if maxTokens < total + msgTokens then []
        else msg :: limitRev charsPerToken maxTokens soft (total + msgTokens) rest

/-- Embedding of `getChatHistory` (`src/index.js` lines 110-166):
skip-last-assistant, exclude-last-user, then the token limit
(`maxTokens = 0` means unlimited). -/
def getChatHistory (config : Config) (chat : List Turn) : List Turn :=
  let messages := filteredMessages config chat
  if 0 < config.maxTokens then
    (limitRev config.charsPerToken config.maxTokens config.softTokenLimit 0 messages.reverse).reverse
  else
    messages

/-- Sum of the per-turn token estimates of a message list (the value
`totalTokens` accumulates over the admitted turns). -/
def tokenSum (charsPerToken : Nat) (messages : List Turn) : Nat :=
  (messages.map fun m => estimateTokens (some m.mes) charsPerToken).sum

@[simp] lemma tokenSum_nil (c : Nat) : tokenSum c [] = 0 := rfl

@[simp] lemma tokenSum_cons (c : Nat) (m : Turn) (l : List Turn) :
    tokenSum c (m :: l) = estimateTokens (some m.mes) c + tokenSum c l := rfl

@[simp] lemma tokenSum_reverse (c : Nat) (l : List Turn) :
    tokenSum c l.reverse = tokenSum c l := by
  simp [tokenSum, List.map_reverse, List.sum_reverse]

lemma tokenSum_append (c : Nat) (l₁ l₂ : List Turn) :
    tokenSum c (l₁ ++ l₂) = tokenSum c l₁ + tokenSum c l₂ := by
  simp [tokenSum]

/-- Hard-mode invariant: starting the loop with `total ≤ maxTokens`,
the admitted turns never push the running total past `maxTokens`. -/
lemma limitRev_hard_sum (cpt mx : Nat) :
    ∀ (l : List Turn) (total : Nat), total ≤ mx →
      total + tokenSum cpt (limitRev cpt mx false total l) ≤ mx := by
  intro l
  induction l with
  | nil => intro total h; simpa [limitRev] using h
  | cons m rest ih =>
      intro total h
      by_cases hc : mx < total + estimateTokens (some m.mes) cpt
      · simpa [limitRev, hc] using h
      · push_neg at hc
        have := ih (total + estimateTokens (some m.mes) cpt) hc
        simp only [limitRev, if_neg (not_lt.mpr hc), Bool.false_eq_true, if_false,
          tokenSum_cons]
        omega

/-- Soft-mode characterisation: starting the loop with `total < maxTokens`,
the admitted (reversed-order) turns form a prefix of the scanned list,
the running total stays below `maxTokens` before the last admitted turn,
and the loop stops only by exhausting the list or by crossing the
threshold with its last admitted turn. -/
lemma limitRev_soft_spec (cpt mx : Nat) :
    ∀ (l : List Turn) (total : Nat), total < mx →
      limitRev cpt mx true total l <+: l
      ∧ total + tokenSum cpt (limitRev cpt mx true total l).dropLast < mx
      ∧ (limitRev cpt mx true total l = l
          ∨ mx ≤ total + tokenSum cpt (limitRev cpt mx true total l)) := by
  intro l
  induction l with
  | nil =>
      intro total h
      refine ⟨List.nil_prefix, ?_, Or.inl rfl⟩
      simpa [limitRev] using h
  | cons m rest ih =>
      intro total h
      by_cases hc : mx ≤ total + estimateTokens (some m.mes) cpt
      · have hstep : limitRev cpt mx true total (m :: rest) = [m] := by
          simp [limitRev, hc]
        rw [hstep]
        refine ⟨⟨rest, rfl⟩, ?_, Or.inr ?_⟩
        · simpa [List.dropLast] using h
        · simpa using hc
      · push_neg at hc
        have hstep : limitRev cpt mx true total (m :: rest)
            = m :: limitRev cpt mx true (total + estimateTokens (some m.mes) cpt) rest := by
          simp [limitRev, not_le.mpr hc]
        obtain ⟨ihp, ihd, ihe⟩ := ih (total + estimateTokens (some m.mes) cpt) hc
        rw [hstep]
        refine ⟨List.cons_prefix_cons.2 ⟨rfl, ihp⟩, ?_, ?_⟩
        · cases hr : limitRev cpt mx true (total + estimateTokens (some m.mes) cpt) rest with
          | nil => simpa [List.dropLast] using h
          | cons a tl =>
              rw [hr] at ihd
              simp only [List.dropLast, tokenSum_cons]
              omega
        · rcases ihe with he | he
          · exact Or.inl (by rw [he])
          · refine Or.inr ?_
            simp only [tokenSum_cons]
            omega

/-- C1.  Hard-mode windowing (`maxTokens > 0`, `softTokenLimit = false`):
the sum of the per-turn token estimates over the list returned by
`getChatHistory` never exceeds `maxTokens`; the backward scan stops
before admitting a turn that would push the running total past the
budget. -/
theorem hard_mode_respects_budget (cfg : Config) (chat : List Turn)
    (hmax : 0 < cfg.maxTokens) (hsoft : cfg.softTokenLimit = false) :
    tokenSum cfg.charsPerToken (getChatHistory cfg chat) ≤ cfg.maxTokens := by
  have h := limitRev_hard_sum cfg.charsPerToken cfg.maxTokens
      (filteredMessages cfg chat).reverse 0 (Nat.zero_le _)
  simp only [getChatHistory, if_pos hmax, hsoft, tokenSum_reverse]
  omega

def c1cfg : Config :=
  { userHeader := "", assistantHeader := "", xmlUserTag := "", xmlAssistantTag := ""
    skipLastAssistant := false, maxTokens := 5, charsPerToken := 4
    softTokenLimit := false, excludeLastUser := false, regexRules := [] }

def c1chat : List Turn := [⟨true, "hello"⟩, ⟨false, "abcdefgh"⟩, ⟨true, "hi"⟩]

theorem hard_mode_respects_budget_witness :
    0 < c1cfg.maxTokens ∧ c1cfg.softTokenLimit = false
    ∧ getChatHistory c1cfg c1chat = c1chat
    ∧ tokenSum c1cfg.charsPerToken (getChatHistory c1cfg c1chat) ≤ c1cfg.maxTokens :=
  ⟨by decide, rfl, by decide, hard_mode_respects_budget c1cfg c1chat (by decide) rfl⟩

/-- C2.  Soft-mode windowing (`maxTokens > 0`, `softTokenLimit = true`):
the selector returns a suffix of the (filtered) conversation, i.e. its
reverse is a prefix of the backward scan; every turn except the oldest
admitted one keeps the running total strictly below `maxTokens` (each
turn is added unconditionally before the threshold test); and the scan
stops only by exhausting the conversation or because the oldest
admitted turn made the running total reach or exceed `maxTokens`.  In
particular a single most-recent turn whose own estimate meets the
budget is included alone. -/
theorem soft_mode_stops_at_crossing (cfg : Config) (chat : List Turn)
    (hmax : 0 < cfg.maxTokens) (hsoft : cfg.softTokenLimit = true) :
    (getChatHistory cfg chat).reverse <+: (filteredMessages cfg chat).reverse
    ∧ tokenSum cfg.charsPerToken ((getChatHistory cfg chat).reverse.dropLast) < cfg.maxTokens
    ∧ ((getChatHistory cfg chat).reverse = (filteredMessages cfg chat).reverse
        ∨ cfg.maxTokens ≤ tokenSum cfg.charsPerToken (getChatHistory cfg chat)) := by
  have h := limitRev_soft_spec cfg.charsPerToken cfg.maxTokens
      (filteredMessages cfg chat).reverse 0 hmax
  simp only [getChatHistory, if_pos hmax, hsoft, List.reverse_reverse, tokenSum_reverse]
  simpa using h

def c2cfg : Config :=
  { userHeader := "", assistantHeader := "", xmlUserTag := "", xmlAssistantTag := ""
    skipLastAssistant := false, maxTokens := 5, charsPerToken := 1
    softTokenLimit := true, excludeLastUser := false, regexRules := [] }

def c2chat : List Turn := [⟨false, "abcdefghij"⟩]

theorem soft_mode_stops_at_crossing_witness :
    0 < c2cfg.maxTokens ∧ c2cfg.softTokenLimit = true
    ∧ getChatHistory c2cfg c2chat = c2chat
    ∧ ((getChatHistory c2cfg c2chat).reverse <+: (filteredMessages c2cfg c2chat).reverse
        ∧ tokenSum c2cfg.charsPerToken ((getChatHistory c2cfg c2chat).reverse.dropLast)
            < c2cfg.maxTokens
        ∧ ((getChatHistory c2cfg c2chat).reverse = (filteredMessages c2cfg c2chat).reverse
            ∨ c2cfg.maxTokens ≤ tokenSum c2cfg.charsPerToken (getChatHistory c2cfg c2chat))) :=
  ⟨by decide, rfl, by decide, soft_mode_stops_at_crossing c2cfg c2chat (by decide) rfl⟩

lemma removeFirstUser_of_no_user :
    ∀ l : List Turn, (∀ m ∈ l, m.is_user = false) → removeFirstUser l = l := by
  intro l
  induction l with
  | nil => intro _; rfl
  | cons a t ih =>
      intro h
      have ha := h a (List.mem_cons_self a t)
      simp only [removeFirstUser, ha, Bool.false_eq_true, if_false, List.cons.injEq, true_and]
      exact ih fun m hm => h m (List.mem_cons_of_mem a hm)

lemma removeFirstUser_append (u : Turn) (b : List Turn) (hu : u.is_user = true) :
    ∀ a : List Turn, (∀ m ∈ a, m.is_user = false) →
      removeFirstUser (a ++ u :: b) = a ++ b := by
  intro a
  induction a with
  | nil => intro _; simp [removeFirstUser, hu]
  | cons x t ih =>
      intro h
      have hx := h x (List.mem_cons_self x t)
      simp only [List.cons_append, removeFirstUser, hx, Bool.false_eq_true, if_false,
        List.cons.injEq, true_and]
      exact ih fun m hm => h m (List.mem_cons_of_mem x hm)

lemma mem_removeFirstUser : ∀ l : List Turn, ∀ m ∈ removeFirstUser l, m ∈ l := by
  intro l
  induction l with
  | nil => intro m hm; exact absurd hm (List.not_mem_nil m)
  | cons a t ih =>
      intro m hm
      by_cases ha : a.is_user
      · simp only [removeFirstUser, ha, if_true] at hm
        exact List.mem_cons_of_mem a hm
      · simp only [removeFirstUser, ha, if_false] at hm
        rcases List.mem_cons.1 hm with h | h
        · exact h ▸ List.mem_cons_self a t
        · exact List.mem_cons_of_mem a (ih m h)

lemma mem_removeLastUser (l : List Turn) (m : Turn) (hm : m ∈ removeLastUser l) : m ∈ l := by
  unfold removeLastUser at hm
  rw [List.mem_reverse] at hm
  have := mem_removeFirstUser l.reverse m hm
  rwa [List.mem_reverse] at this

lemma mem_skipLastAssistantStep (l : List Turn) (m : Turn)
    (hm : m ∈ skipLastAssistantStep l) : m ∈ l := by
  unfold skipLastAssistantStep at hm
  rcases hl : l.getLast? with _ | t
  · rwa [hl] at hm
  · rw [hl] at hm
    by_cases ht : t.is_user
    · simpa [ht] using hm
    · simp only [ht, Bool.not_false, if_true] at hm
      exact (List.dropLast_sublist l).subset hm

lemma mem_filteredMessages (cfg : Config) (chat : List Turn) (m : Turn)
    (hm : m ∈ filteredMessages cfg chat) : m ∈ chat := by
  unfold filteredMessages at hm
  by_cases he : cfg.excludeLastUser <;> by_cases hs : cfg.skipLastAssistant <;>
    simp only [he, hs, if_true, if_false] at hm
  · exact mem_skipLastAssistantStep _ _ (mem_removeLastUser _ _ hm)
  · exact mem_removeLastUser _ _ hm
  · exact mem_skipLastAssistantStep _ _ hm
  · exact hm

/-- C4.  The skip-last-other step is exactly pre-removal of the trailing
OTHER turn: with the rest of the configuration fixed, selection with
`skipLastAssistant = true` on a conversation ending in an assistant turn
equals selection (with the skip step off) on the conversation with that
trailing turn removed; and when the conversation ends in a user turn or
is empty, the skip step removes nothing. -/
theorem skip_last_other_is_pre_removal (cfg : Config) (chat : List Turn) :
    (∀ t : Turn, chat.getLast? = some t → t.is_user = false →
      getChatHistory { cfg with skipLastAssistant := true } chat
        = getChatHistory { cfg with skipLastAssistant := false } chat.dropLast)
    ∧ (∀ t : Turn, chat.getLast? = some t → t.is_user = true →
      getChatHistory { cfg with skipLastAssistant := true } chat
        = getChatHistory { cfg with skipLastAssistant := false } chat)
    ∧ (chat = [] →
      getChatHistory { cfg with skipLastAssistant := true } chat
        = getChatHistory { cfg with skipLastAssistant := false } chat) := by
  refine ⟨?_, ?_, ?_⟩
  · intro t hlast ht
    have hstep : skipLastAssistantStep chat = chat.dropLast := by
      simp [skipLastAssistantStep, hlast, ht]
    simp [getChatHistory, filteredMessages, hstep]
  · intro t hlast ht
    have hstep : skipLastAssistantStep chat = chat := by
      simp [skipLastAssistantStep, hlast, ht]
    simp [getChatHistory, filteredMessages, hstep]
  · intro hnil
    subst hnil
    simp [getChatHistory, filteredMessages, skipLastAssistantStep]

def c4cfg : Config :=
  { userHeader := "", assistantHeader := "", xmlUserTag := "", xmlAssistantTag := ""
    skipLastAssistant := false, maxTokens := 0, charsPerToken := 4
    softTokenLimit := false, excludeLastUser := false, regexRules := [] }

theorem skip_last_other_is_pre_removal_witness :
    ([⟨true, "hi"⟩, ⟨false, "yo"⟩] : List Turn).getLast? = some ⟨false, "yo"⟩
    ∧ (Turn.mk false ("yo")).is_user = false
    ∧ getChatHistory { c4cfg with skipLastAssistant := true } [⟨true, "hi"⟩, ⟨false, "yo"⟩]
        = getChatHistory { c4cfg with skipLastAssistant := false }
            ([⟨true, "hi"⟩, ⟨false, "yo"⟩] : List Turn).dropLast :=
  ⟨by decide, rfl,
    (skip_last_other_is_pre_removal c4cfg [⟨true, "hi"⟩, ⟨false, "yo"⟩]).1
      ⟨false, "yo"⟩ (by decide) rfl⟩

/-- C5.  The drop-last-user step (`excludeLastUser`, the
"exclude last user message" scan of the source) removes exactly the most recent USER
turn: if the sequence decomposes as `front ++ u :: back` with `u` a user
turn and no user turn in `back`, the result is `front ++ back` — one
removal, everything else kept in order; and it is a no-op when the
sequence contains no user turn. -/
theorem drop_last_user_removes_exactly_one (messages : List Turn) :
    ((∀ m ∈ messages, m.is_user = false) → removeLastUser messages = messages)
    ∧ (∀ (front back : List Turn) (u : Turn),
        messages = front ++ u :: back → u.is_user = true →
        (∀ m ∈ back, m.is_user = false) →
        removeLastUser messages = front ++ back)
    ∧ (∀ cfg : Config, cfg.skipLastAssistant = false → cfg.excludeLastUser = true →
        cfg.maxTokens = 0 → getChatHistory cfg messages = removeLastUser messages) := by
  refine ⟨?_, ?_, ?_⟩
  · intro h
    unfold removeLastUser
    rw [removeFirstUser_of_no_user messages.reverse
      (fun m hm => h m (List.mem_reverse.1 hm)), List.reverse_reverse]
  · intro front back u hdec hu hback
    unfold removeLastUser
    have hrev : messages.reverse = back.reverse ++ u :: front.reverse := by
      rw [hdec]
      simp
    rw [hrev, removeFirstUser_append u front.reverse hu back.reverse
      (fun m hm => hback m (List.mem_reverse.1 hm))]
    simp
  · intro cfg hs he hm
    simp [getChatHistory, filteredMessages, hs, he, hm]

theorem drop_last_user_removes_exactly_one_witness :
    (Turn.mk true ("c")).is_user = true
    ∧ removeLastUser [⟨true, "a"⟩, ⟨false, "b"⟩, ⟨true, "c"⟩, ⟨false, "d"⟩]
        = [⟨true, "a"⟩, ⟨false, "b"⟩, ⟨false, "d"⟩] :=
  ⟨rfl,
    (drop_last_user_removes_exactly_one
        [⟨true, "a"⟩, ⟨false, "b"⟩, ⟨true, "c"⟩, ⟨false, "d"⟩]).2.1
      [⟨true, "a"⟩, ⟨false, "b"⟩] [⟨false, "d"⟩] ⟨true, "c"⟩ rfl rfl (by decide)⟩

lemma limitRev_hard_all_zero (cpt mx : Nat) :
    ∀ (l : List Turn) (total : Nat),
      (∀ m ∈ l, estimateTokens (some m.mes) cpt = 0) → total ≤ mx →
      limitRev cpt mx false total l = l := by
  intro l
  induction l with
  | nil => intro total _ _; rfl
  | cons m rest ih =>
      intro total hz htot
      have hm := hz m (List.mem_cons_self m rest)
      have hguard : ¬ mx < total := by omega
      simp only [limitRev, Bool.false_eq_true, if_false, hm, Nat.add_zero, if_neg hguard,
        List.cons.injEq, true_and]
      exact ih total (fun x hx => hz x (List.mem_cons_of_mem m hx)) htot

/-- C10.  In hard-mode windowing a zero-estimate turn (empty text) never
triggers the stop condition: it is admitted and leaves the running
total unchanged; consequently, with any positive budget, a conversation
whose turns all have empty text passes through the windowing step in
full (the window returns everything the filtering steps kept). -/
theorem zero_estimate_never_stops :
    (∀ (cpt mx total : Nat) (m : Turn) (rest : List Turn),
        total ≤ mx → m.mes = "" →
        limitRev cpt mx false total (m :: rest) = m :: limitRev cpt mx false total rest)
    ∧ (∀ (cfg : Config) (chat : List Turn),
        0 < cfg.maxTokens → cfg.softTokenLimit = false →
        (∀ m ∈ chat, m.mes = "") →
        getChatHistory cfg chat = filteredMessages cfg chat) := by
  constructor
  · intro cpt mx total m rest htot hmes
    have hz : estimateTokens (some m.mes) cpt = 0 := by
      rw [hmes]; rfl
    have hguard : ¬ mx < total := by omega
    simp only [limitRev, Bool.false_eq_true, if_false, hz, Nat.add_zero, if_neg hguard]
  · intro cfg chat hmax hsoft hemp
    have hz : ∀ m ∈ (filteredMessages cfg chat).reverse,
        estimateTokens (some m.mes) cfg.charsPerToken = 0 := by
      intro m hm
      have : m ∈ chat := mem_filteredMessages cfg chat m (List.mem_reverse.1 hm)
      rw [hemp m this]; rfl
    simp only [getChatHistory, if_pos hmax, hsoft,
      limitRev_hard_all_zero cfg.charsPerToken cfg.maxTokens
        (filteredMessages cfg chat).reverse 0 hz (Nat.zero_le _),
      List.reverse_reverse]

def c10cfg : Config :=
  { userHeader := "", assistantHeader := "", xmlUserTag := "", xmlAssistantTag := ""
    skipLastAssistant := false, maxTokens := 1, charsPerToken := 4
    softTokenLimit := false, excludeLastUser := false, regexRules := [] }

def c10chat : List Turn := [⟨true, ""⟩, ⟨false, ""⟩, ⟨true, ""⟩]

theorem zero_estimate_never_stops_witness :
    0 < c10cfg.maxTokens ∧ c10cfg.softTokenLimit = false
    ∧ getChatHistory c10cfg c10chat = filteredMessages c10cfg c10chat
    ∧ getChatHistory c10cfg c10chat = c10chat
    ∧ limitRev 4 1 false 0 (⟨false, ""⟩ :: c10chat)
        = ⟨false, ""⟩ :: limitRev 4 1 false 0 c10chat :=
  ⟨by decide, rfl,
    zero_estimate_never_stops.2 c10cfg c10chat (by decide) rfl (by decide),
    by decide,
    zero_estimate_never_stops.1 4 1 0 ⟨false, ""⟩ c10chat (by decide) rfl⟩

lemma nat_add_pred_div_eq_ceil (a c : Nat) (hc : 0 < c) :
    (a + c - 1) / c = ⌈(a : ℚ) / (c : ℚ)⌉₊ := by
  have h1 : ∀ n : ℕ, (a + c - 1) / c ≤ n ↔ a ≤ c * n := by
    intro n
    rw [Nat.div_le_iff_le_mul_add_pred hc]
    omega
  have h2 : ∀ n : ℕ, ⌈(a : ℚ) / (c : ℚ)⌉₊ ≤ n ↔ a ≤ c * n := by
    intro n
    rw [Nat.ceil_le, div_le_iff₀ (by positivity)]
    rw [mul_comm]
    exact_mod_cast Iff.rfl
  exact le_antisymm ((h1 _).2 ((h2 _).1 le_rfl)) ((h2 _).2 ((h1 _).1 le_rfl))

/-- C9.  The token estimator: for every positive `charsPerToken` it
returns exactly `⌈length(text) / charsPerToken⌉` on every string
(including the empty string, where the JavaScript falsiness guard and
the formula agree on 0), and returns 0 on an undefined text. -/
theorem estimateTokens_is_ceil (c : Nat) (hc : 0 < c) :
    estimateTokens none c = 0
    ∧ (∀ s : String, estimateTokens (some s) c = ⌈(s.length : ℚ) / (c : ℚ)⌉₊) := by
  refine ⟨rfl, fun s => ?_⟩
  by_cases hs : s.isEmpty
  · rw [String.isEmpty_iff] at hs
    subst hs
    have hemp : ("" : String).isEmpty = true := rfl
    simp [estimateTokens, hemp]
  · simp only [estimateTokens, hs, Bool.false_eq_true, if_false]
    exact nat_add_pred_div_eq_ceil s.length c hc

theorem estimateTokens_is_ceil_witness :
    0 < 4
    ∧ estimateTokens none 4 = 0
    ∧ estimateTokens (some ("")) 4 = 0
    ∧ estimateTokens (some ("hello")) 4 = ⌈((5 : ℚ)) / ((4 : ℚ))⌉₊
    ∧ estimateTokens (some ("hello")) 4 = 2 :=
  ⟨by decide, (estimateTokens_is_ceil 4 (by decide)).1, rfl,
    by simpa using (estimateTokens_is_ceil 4 (by decide)).2 ("hello"), rfl⟩


/-- Abstract oracle for the host regular-expression engine.
`valid pattern flags` holds when `new RegExp(pattern, flags)` compiles
(otherwise the `try` block of the source throws before any replacement);
`replaceAll text pattern flags replacement` is the value of
`text.replace(new RegExp(pattern, flags), replacement)`. -/
structure JsRegex where
  valid : String → String → Bool
  replaceAll : String → String → String → String → String

/-- Embedding of `applyRegexRules` of the userscript variant
(`src/index.js` lines 169-185): for each rule, skip when disabled,
otherwise compile `pattern` with the flags string (default `g`) and globally replace;
a rule whose pattern fails to compile is skipped. -/
def applyRegexRules (eng : JsRegex) (rules : List RegexRule) (text : String) : String :=
  rules.foldl
    (fun text rule =>
      if !rule.enabled then text
      else
        let flags := if rule.flags = "" then ("g") else rule.flags
        if eng.valid rule.pattern flags then eng.replaceAll text rule.pattern flags rule.replacement
        else text)
    text

/-- Rule record of the `customizable-text-history-with-regexes` variant
(`src/unnamed/part_001`): `name`, `enabled`, `findRegex`, `replaceWith`,
`trimOut` (the `id` field is never read by the engine). -/
structure RuleCTHR where
  name : String
  enabled : Bool
  findRegex : String
  replaceWith : String
  trimOut : String
deriving DecidableEq, Repr

/-- The trim-pattern list of a rule: `rule.trimOut` split on newlines,
filtered by `p.trim()` truthiness (`src/unnamed/part_001` line 101). -/
def trimPatterns (trimOut : String) : List String :=
  (trimOut.splitOn ("\n")).filter fun p => !p.trim.isEmpty

/-- The inner trim loop of `applyRegexRules`
(`src/unnamed/part_001` lines 102-109): each pattern is compiled with
flag `g` and replaced by the empty string; an invalid pattern is
skipped independently. -/
def applyTrims (eng : JsRegex) (patterns : List String) (result : String) : String :=
  patterns.foldl
    (fun result pattern =>
      if eng.valid pattern ("g") then eng.replaceAll result pattern ("g") ("")
      else result)
    result

/-- Embedding of `applyRegexRules` of the
`customizable-text-history-with-regexes` variant
(`src/unnamed/part_001` lines 89-117): skip rules that are disabled or
have an empty `findRegex`; compile `findRegex` with flag `g` and
globally replace with `replaceWith`; when the rule carries a non-empty
`trimOut`, apply its trim patterns afterwards; a rule whose main
pattern fails to compile leaves the text as it stood. -/
def applyRegexRulesCTHR (eng : JsRegex) (rules : List RuleCTHR) (text : String) : String :=
  rules.foldl
    (fun result rule =>
      if !rule.enabled || rule.findRegex = "" then result
      else if eng.valid rule.findRegex ("g") then
        let r1 := eng.replaceAll result rule.findRegex ("g") rule.replaceWith
        if rule.trimOut = "" then r1
        else applyTrims eng (trimPatterns rule.trimOut) r1
      else result)
    text

/-- Rule record of the `custom-thread-builder` variant
(`src/index.js` third script, `addRegexRule`): `enabled`, `appliesTo`
(`"user"` / `"assistant"` / `"both"`), `pattern`, `replacement`,
`flags`. -/
structure ScopedRule where
  enabled : Bool
  appliesTo : String
  pattern : String
  replacement : String
  flags : String
deriving DecidableEq, Repr

/-- Loop body of `applyRegexRules(text, isUser)` of the
`custom-thread-builder` variant (`src/index.js` lines 1145-1160):
skip a disabled rule or a rule whose `appliesTo` excludes the current
speaker, then compile with `flags || "g"` and globally replace; a rule
that fails to compile leaves the text unchanged. -/
def scopedStep (eng : JsRegex) (isUser : Bool) (text : String) (rule : ScopedRule) : String :=
  if !rule.enabled then text
  else if rule.appliesTo = "user" && !isUser then text
  else if rule.appliesTo = "assistant" && isUser then text
  else
    let flags := if rule.flags = "" then ("g") else rule.flags
    if eng.valid rule.pattern flags then eng.replaceAll text rule.pattern flags rule.replacement
    else text

/-- Embedding of `applyRegexRules(text, isUser)` of the
`custom-thread-builder` variant (`src/index.js` lines 1141-1163): the
fold of `scopedStep` over the rule list. -/
def applyRegexRulesScoped (eng : JsRegex) (rules : List ScopedRule)
    (text : String) (isUser : Bool) : String :=
  rules.foldl (scopedStep eng isUser) text

/-- Spec-side predicate: the rules `applyRegexRulesScoped` actually
runs are exactly the enabled ones whose scope matches the speaker
(anything other than `"user"`/`"assistant"`, in particular `"both"`,
matches every speaker). -/
def appliesToSpeaker (rule : ScopedRule) (isUser : Bool) : Bool :=
  rule.enabled && !(rule.appliesTo = "user" && !isUser)
    && !(rule.appliesTo = "assistant" && isUser)

/-- Spec-side single-rule application: compile-or-skip and replace. -/
def applyOneScopedRule (eng : JsRegex) (text : String) (rule : ScopedRule) : String :=
  let flags := if rule.flags = "" then ("g") else rule.flags
  if eng.valid rule.pattern flags then eng.replaceAll text rule.pattern flags rule.replacement
  else text


/-- C6.  The rewrite engine never propagates a bad pattern: a rule
whose `findRegex` fails to compile is skipped — the text stands as it
was before that rule and every later rule still runs on it — and an
invalid pattern in the newline-separated trim list of a rule is skipped
independently, without undoing the preceding replacements or the other
trim patterns.  (Disabled rules are likewise inert.) -/
theorem bad_rule_is_skipped (eng : JsRegex) (text : String) :
    (∀ (rs1 rs2 : List RuleCTHR) (bad : RuleCTHR),
        eng.valid bad.findRegex ("g") = false →
        applyRegexRulesCTHR eng (rs1 ++ bad :: rs2) text
          = applyRegexRulesCTHR eng (rs1 ++ rs2) text)
    ∧ (∀ (ps1 ps2 : List String) (badp : String),
        eng.valid badp ("g") = false →
        applyTrims eng (ps1 ++ badp :: ps2) text
          = applyTrims eng (ps1 ++ ps2) text)
    ∧ (∀ (rs1 rs2 : List RuleCTHR) (off : RuleCTHR),
        off.enabled = false →
        applyRegexRulesCTHR eng (rs1 ++ off :: rs2) text
          = applyRegexRulesCTHR eng (rs1 ++ rs2) text) := by
  refine ⟨?_, ?_, ?_⟩
  · intro rs1 rs2 bad hbad
    unfold applyRegexRulesCTHR
    rw [List.foldl_append, List.foldl_append, List.foldl_cons]
    by_cases he : !bad.enabled || bad.findRegex = ""
    · rw [if_pos he]
    · rw [if_neg he, if_neg (by simp [hbad])]
  · intro ps1 ps2 badp hbad
    unfold applyTrims
    rw [List.foldl_append, List.foldl_append, List.foldl_cons, if_neg (by simp [hbad])]
  · intro rs1 rs2 off hoff
    unfold applyRegexRulesCTHR
    rw [List.foldl_append, List.foldl_append, List.foldl_cons,
      if_pos (by simp [hoff])]

def c6eng : JsRegex :=
  { valid := fun p _ => !(p = "(")
    replaceAll := fun text _ _ replacement => text ++ replacement }

def c6good : RuleCTHR :=
  { name := "r1", enabled := true, findRegex := "a", replaceWith := "b", trimOut := "" }

def c6bad : RuleCTHR :=
  { name := "r2", enabled := true, findRegex := "(", replaceWith := "c", trimOut := "" }

theorem bad_rule_is_skipped_witness :
    c6eng.valid c6bad.findRegex ("g") = false
    ∧ applyRegexRulesCTHR c6eng [c6good, c6bad] ("xy")
        = applyRegexRulesCTHR c6eng [c6good] ("xy")
    ∧ applyRegexRulesCTHR c6eng [c6good] ("xy") = "xyb"
    ∧ applyTrims c6eng ["a", "(", "z"] ("t")
        = applyTrims c6eng ["a", "z"] ("t") :=
  ⟨rfl,
    (bad_rule_is_skipped c6eng ("xy")).1 [c6good] [] c6bad rfl,
    rfl,
    (bad_rule_is_skipped c6eng ("t")).2.1 ["a"] ["z"] ("(") rfl⟩

/-- C7.  The scoped rewrite engine runs exactly the enabled rules whose
scope matches the speaker, in list order, the output of each successful
rule feeding the next: folding the source loop equals folding the
compile-or-skip step over the filtered rule list.  A disabled rule (or
one scoped to the other speaker) contributes nothing. -/
theorem scoped_rules_apply_in_order (eng : JsRegex) (rules : List ScopedRule)
    (text : String) (isUser : Bool) :
    applyRegexRulesScoped eng rules text isUser
      = (rules.filter fun r => appliesToSpeaker r isUser).foldl
          (applyOneScopedRule eng) text := by
  have hstep : ∀ (t : String) (r : ScopedRule),
      scopedStep eng isUser t r
        = if appliesToSpeaker r isUser then applyOneScopedRule eng t r else t := by
    intro t r
    by_cases h1 : r.enabled
    · by_cases h2 : r.appliesTo = "user" && !isUser
      · have hs : appliesToSpeaker r isUser = false := by simp [appliesToSpeaker, h2]
        simp [scopedStep, h1, h2, hs]
      · by_cases h3 : r.appliesTo = "assistant" && isUser
        · have hs : appliesToSpeaker r isUser = false := by simp [appliesToSpeaker, h3]
          simp [scopedStep, h1, h2, h3, hs]
        · have hs : appliesToSpeaker r isUser = true := by
            simp only [appliesToSpeaker, h1, true_and]
            simp [h2, h3]
          simp [scopedStep, h1, h2, h3, hs, applyOneScopedRule]
    · have hs : appliesToSpeaker r isUser = false := by simp [appliesToSpeaker, h1]
      simp [scopedStep, h1, hs]
  unfold applyRegexRulesScoped
  induction rules generalizing text with
  | nil => rfl
  | cons r rest ih =>
      rw [List.foldl_cons, List.filter_cons, hstep]
      by_cases h : appliesToSpeaker r isUser
      · rw [if_pos h, if_pos (by simpa using h), List.foldl_cons]
        exact ih _
      · rw [if_neg h, if_neg (by simpa using h)]
        exact ih _


/-- Embedding of `getLastUserMessage` (`src/index.js` lines 96-107):
scan the raw conversation backwards and return the first user turn
found, `null` if none. -/
def getLastUserMessage (chat : List Turn) : Option Turn :=
  chat.reverse.find? fun m => m.is_user

/-- Embedding of `generateLastMessage` (`src/index.js` lines 218-230):
take the LAST ELEMENT OF `getChatHistory()` (the filtered, windowed
selection), rewrite its text, and wrap it in the per-role XML tag. -/
def generateLastMessage (eng : JsRegex) (config : Config) (chat : List Turn) : String :=
  let messages := getChatHistory config chat
  match messages.getLast? with
  | none => ""
  | some lastMsg =>
      let tag := if lastMsg.is_user then config.xmlUserTag else config.xmlAssistantTag
      let content := applyRegexRules eng config.regexRules lastMsg.mes
      "<" ++ tag ++ "_message>" ++ content ++ "</" ++ tag ++ "_message>"

/-- Embedding of `generateLastUserMessage` (`src/index.js` lines
232-242): render `getLastUserMessage()` (the raw-conversation query)
in the user XML tag. -/
def generateLastUserMessage (eng : JsRegex) (config : Config) (chat : List Turn) : String :=
  match getLastUserMessage chat with
  | none => ""
  | some lastUserMsg =>
      let content := applyRegexRules eng config.regexRules lastUserMsg.mes
      "<" ++ config.xmlUserTag ++ "_message>" ++ content
        ++ "</" ++ config.xmlUserTag ++ "_message>"

lemma find_eq_head_filter (p : Turn → Bool) :
    ∀ l : List Turn, l.find? p = (l.filter p).head? := by
  intro l
  induction l with
  | nil => rfl
  | cons a t ih =>
      rw [List.find?_cons, List.filter_cons]
      by_cases h : p a
      · simp [h]
      · simp only [h, Bool.false_eq_true, if_false, ih]

def c3eng : JsRegex :=
  { valid := fun _ _ => true, replaceAll := fun text _ _ _ => text }

def c3cfg : Config :=
  { userHeader := "", assistantHeader := "", xmlUserTag := "student"
    xmlAssistantTag := "teacher", skipLastAssistant := false, maxTokens := 0
    charsPerToken := 4, softTokenLimit := false, excludeLastUser := false
    regexRules := [] }

def c3chat : List Turn := [⟨true, "hi"⟩, ⟨false, "yo"⟩]

/-- C3 counterexample: `generateLastMessage` (the `{{lastMessage}}`
macro) reads the LAST ELEMENT of `getChatHistory()` — the filtered,
windowed selection — not the raw conversation.  On a conversation whose
true most recent turn is the assistant turn `"yo"`, toggling
`skipLastAssistant` (with everything else fixed, no regex rules, no
token limit) changes its output: with the skip on it renders the user
turn `"hi"`, so it is not unaffected by the skip/drop/window options as
the claim states. -/
theorem generateLastMessage_affected_by_skip :
    generateLastMessage c3eng { c3cfg with skipLastAssistant := true } c3chat
        = "<student_message>hi</student_message>"
    ∧ generateLastMessage c3eng { c3cfg with skipLastAssistant := false } c3chat
        = "<teacher_message>yo</teacher_message>"
    ∧ generateLastMessage c3eng { c3cfg with skipLastAssistant := true } c3chat
        ≠ generateLastMessage c3eng { c3cfg with skipLastAssistant := false } c3chat :=
  ⟨rfl, rfl, by decide⟩

/-- C3 (amended).  `getLastUserMessage` and its rendering
`generateLastUserMessage` scan the raw, unfiltered conversation from
the end: `getLastUserMessage` returns exactly the most recent USER turn
of the conversation (none if there is no user turn), and
`generateLastUserMessage` is unaffected by `skipLastAssistant`,
`excludeLastUser` and the token-budget options.  (`generateLastMessage`,
by contrast, renders the last turn of the filtered, windowed selection
— see the counterexample.) -/
theorem last_user_queries_bypass_filtering :
    (∀ chat : List Turn,
      getLastUserMessage chat = (chat.filter fun m => m.is_user).getLast?)
    ∧ (∀ (eng : JsRegex) (cfg : Config) (chat : List Turn) (b1 b2 soft : Bool) (mx cpt : Nat),
      generateLastUserMessage eng
          { cfg with skipLastAssistant := b1, excludeLastUser := b2,
                     maxTokens := mx, charsPerToken := cpt, softTokenLimit := soft } chat
        = generateLastUserMessage eng cfg chat) := by
  constructor
  · intro chat
    unfold getLastUserMessage
    rw [find_eq_head_filter, List.filter_reverse, List.head?_reverse]
  · intro eng cfg chat b1 b2 soft mx cpt
    rfl


/-- Configuration of the `customizable-text-history-with-regexes`
variant (`src/unnamed/part_001`, `defaultSettings`), restricted to the
fields the embedded core reads.  This variant has no soft-limit and no
exclude-last-user option. -/
structure ConfigCTHR where
  userHeader : String
  assistantHeader : String
  skipLastAssistant : Bool
  maxTokens : Nat
  charsPerToken : Nat
  regexRules : List RuleCTHR
deriving DecidableEq, Repr

/-- Embedding of `getChatHistory` of the
`customizable-text-history-with-regexes` variant
(`src/unnamed/part_001` lines 52-86): skip-last-assistant, then the
hard token limit (this variant has no soft mode). -/
def getChatHistoryCTHR (config : ConfigCTHR) (chat : List Turn) : List Turn :=
  let messages := if config.skipLastAssistant then skipLastAssistantStep chat else chat
  if 0 < config.maxTokens then
    (limitRev config.charsPerToken config.maxTokens false 0 messages.reverse).reverse
  else
    messages

/-- Embedding of the `headerHistoryR` macro (`src/unnamed/part_001`
lines 370-378): build the raw block — header line above each message —
join with blank lines, and ONLY THEN run the regex rules over the
whole assembled string. -/
def headerHistoryR (eng : JsRegex) (config : ConfigCTHR) (chat : List Turn) : String :=
  let messages := getChatHistoryCTHR config chat
  let raw := String.intercalate ("\n\n") (messages.map fun msg =>
    (if msg.is_user then config.userHeader else config.assistantHeader) ++ "\n" ++ msg.mes)
  applyRegexRulesCTHR eng config.regexRules raw

/-- Embedding of `generateHeaders` (`src/index.js` lines 188-201):
for each selected message, rewrite ITS TEXT with the regex rules, then
append `header\ncontent\n\n`; trim the result. -/
def generateHeaders (eng : JsRegex) (config : Config) (chat : List Turn) : String :=
  let messages := getChatHistory config chat
  (messages.foldl
    (fun output msg =>
      let header := if msg.is_user then config.userHeader else config.assistantHeader
      let content := applyRegexRules eng config.regexRules msg.mes
      output ++ header ++ "\n" ++ content ++ "\n\n")
    ("")).trim

/-- Modelled from the spec (4.4 Formatter, header style): assemble the
blocks from already-prepared turn texts; the formatter itself never
invokes the rewrite engine. -/
def formatHeaders (config : Config) (messages : List Turn) : String :=
  (messages.foldl
    (fun output msg =>
      output ++ (if msg.is_user then config.userHeader else config.assistantHeader)
        ++ "\n" ++ msg.mes ++ "\n\n")
    ("")).trim

/-- Regex oracle for the C8 counterexample.  It records what the
JavaScript engine does on the two calls the scenario performs:
`"## Teacher Turn\nhello".replace(/Teacher/g, "X")` is
`"## X Turn\nhello"`, and a global replace whose pattern does not occur
in the text (in particular `/Teacher/g` on `"hello"`) returns the text
unchanged. -/
def c8eng : JsRegex :=
  { valid := fun _ _ => true
    replaceAll := fun text pattern _ replacement =>
      if pattern = "Teacher" && text = "## Teacher Turn\nhello" && replacement = "X"
      then ("## X Turn\nhello")
      else text }

def c8cfg : ConfigCTHR :=
  { userHeader := "## Student Turn", assistantHeader := "## Teacher Turn"
    skipLastAssistant := false, maxTokens := 0, charsPerToken := 4
    regexRules :=
      [{ name := "r", enabled := true, findRegex := "Teacher", replaceWith := "X"
         trimOut := "" }] }

def c8chat : List Turn := [⟨false, "hello"⟩]

/-- C8 counterexample: in the `headerHistoryR` pipeline
(`src/unnamed/part_001`, `registerMacros`) the rewrite rules run over
the ASSEMBLED block, after the formatter contributed the header, so a
rule matching the header text rewrites it.  Here the rule
the global replacement of `Teacher` by `X` leaves the message text
`hello` of the turn unchanged, yet the header in the output reads
`## X Turn` instead of the configured
`## Teacher Turn` — the formatter-contributed text was altered by the
rewrite rules, contradicting the claim. -/
theorem headerHistoryR_rewrites_header :
    applyRegexRulesCTHR c8eng c8cfg.regexRules ("hello") = "hello"
    ∧ headerHistoryR c8eng c8cfg c8chat = "## X Turn\nhello"
    ∧ headerHistoryR c8eng c8cfg c8chat
        ≠ c8cfg.assistantHeader ++ "\n"
            ++ applyRegexRulesCTHR c8eng c8cfg.regexRules ("hello") :=
  ⟨rfl, rfl, by decide⟩

/-- C8 (amended).  In the userscript pipeline (`generateHeaders`,
`src/index.js` lines 188-201) the rewrite rules are applied per turn
to the message text of that turn before the block is assembled: the pipeline
equals Selector → per-turn Rewrite → Formatter, where the formatter
receives the turns with rewritten texts and contributes headers and
separators verbatim.  (the history macros of `src/unnamed/part_001` instead
apply the rules to the fully assembled string — see the
counterexample.) -/
theorem generateHeaders_rewrites_per_turn (eng : JsRegex) (cfg : Config) (chat : List Turn) :
    generateHeaders eng cfg chat
      = formatHeaders cfg ((getChatHistory cfg chat).map fun m =>
          { m with mes := applyRegexRules eng cfg.regexRules m.mes }) := by
  have h : ∀ (l : List Turn) (acc : String),
      l.foldl
        (fun output msg =>
          output ++ (if msg.is_user then cfg.userHeader else cfg.assistantHeader)
            ++ "\n" ++ applyRegexRules eng cfg.regexRules msg.mes ++ "\n\n") acc
      = (l.map fun m => { m with mes := applyRegexRules eng cfg.regexRules m.mes }).foldl
          (fun output msg =>
            output ++ (if msg.is_user then cfg.userHeader else cfg.assistantHeader)
              ++ "\n" ++ msg.mes ++ "\n\n") acc := by
    intro l
    induction l with
    | nil => intro acc; rfl
    | cons m rest ih =>
        intro acc
        rw [List.map_cons, List.foldl_cons, List.foldl_cons, ih]
  simp only [generateHeaders, formatHeaders]
  rw [h]

end CTHR
